import Mathlib

/-!
Verification development for the Plan → Act → Respond agent engine
(packages/agents: plan-act agent, plan-act adapter, tool converter/merger,
packages/tools: built-in toolset).

Shallow embedding conventions:
* TypeScript objects become structures; `undefined`-able fields become `Option`.
* JavaScript plain objects used as string-keyed maps become association lists
  with in-place update (`setAssoc`), which matches JS key-ordering semantics:
  assigning to an existing key keeps its position, assigning to a fresh key
  appends it.
* Tool executables are irrelevant to every claim, so a tool value is
  represented by its provenance (`ToolOrigin`), not by executable code.
* Model/provider streams are oracle parameters: a phase receives the chunk
  sequences the backend would produce and is otherwise deterministic.
-/

namespace AgentsRepo

/-! ## packages/agents/src/tools/types.ts and schema-converter.ts -/

/-- JSON-Schema `type` field of a property, as discriminated by
`validateJsonSchema` in schema-converter.ts. Unrecognised type strings are
kept as `other`. -/
inductive JType where
  | string
  | number
  | integer
  | boolean
  | array
  | object
  | other (name : String)
deriving DecidableEq, Repr

/-- `['string','number','integer','boolean','array','object'].includes(property.type)`. -/
def supportedJType : JType → Bool
  | .other _ => false
  | _ => true

mutual

/-- A `JSONSchemaProperty` (types.ts): `type`, optional `items`, optional
`properties`. Fields not inspected by `validateJsonSchema` (description,
enum, minimum, maximum, required) are omitted; no claim depends on them. -/
inductive JProp where
  | mk (jtype : JType) (items : JItems) (properties : JProps)
deriving DecidableEq, Repr

/-- Optional `items` sub-schema of a property. -/
inductive JItems where
  | none
  | some (p : JProp)
deriving DecidableEq, Repr

/-- Optional `properties` record of a property. -/
inductive JProps where
  | none
  | some (l : JPropList)
deriving DecidableEq, Repr

/-- Entries of a `properties` record: key/sub-schema pairs in object order. -/
inductive JPropList where
  | nil
  | cons (key : String) (p : JProp) (rest : JPropList)
deriving DecidableEq, Repr

end

mutual

/-- `validateProperty` of schema-converter.ts, as the predicate
"this property contributes no error": the type is supported, and when the
type is `array`/`object` the present `items`/`properties` validate
recursively. -/
def supportedJProp : JProp → Bool
  | .mk t items props =>
    supportedJType t
      && (match t, items with
          | .array, .some i => supportedJProp i
          | _, _ => true)
      && (match t, props with
          | .object, .some l => supportedJPropList l
          | _, _ => true)

/-- All properties of a `properties` record validate. -/
def supportedJPropList : JPropList → Bool
  | .nil => true
  | .cons _ p rest => supportedJProp p && supportedJPropList rest

end

/-- `OpenAIFunctionParameters`: the root schema of a tool. -/
structure OpenAIFunctionParameters where
  jtype : JType
  properties : JProps
deriving DecidableEq, Repr

/-- `validateJsonSchema` (schema-converter.ts): pushes an error unless the
root type is `object`; when `properties` is absent returns immediately,
otherwise recursively validates every property. `true` iff the collected
error list is empty. -/
def validateJsonSchema (p : OpenAIFunctionParameters) : Bool :=
  (p.jtype == .object)
    && (match p.properties with
        | .none => true
        | .some l => supportedJPropList l)

/-- The `function` part of an `OpenAITool` declaration. -/
structure OpenAITool where
  name : String
  description : Option String
  parameters : OpenAIFunctionParameters
deriving DecidableEq, Repr

/-- `ToolExecutionMode` (types.ts). -/
inductive ToolExecutionMode where
  | server
  | client
deriving DecidableEq, Repr

/-- `ToolMetadata` (types.ts): name, execution mode, original declaration. -/
structure ToolMetadata where
  name : String
  executionMode : ToolExecutionMode
  originalDefinition : Option OpenAITool
deriving DecidableEq, Repr

/-- `ClientExecutionRequiredError` (tools/converter.ts): the dedicated signal
thrown when a client-side tool's placeholder execute function is reached.
It carries the tool name and the tool call id. -/
structure ClientExecutionRequiredError where
  toolName : String
  toolCallId : String
deriving DecidableEq, Repr

/-- The message built in the `ClientExecutionRequiredError` constructor. -/
def ClientExecutionRequiredError.message (e : ClientExecutionRequiredError) : String :=
  "Tool \"" ++ e.toolName ++ "\" requires client-side execution. Tool call ID: " ++ e.toolCallId

/-- `ConvertedTool` (types.ts): a named AI-SDK tool plus metadata. The
executable itself is opaque to every claim, so only name and metadata are
kept. -/
structure ConvertedTool where
  name : String
  metadata : ToolMetadata
deriving DecidableEq, Repr

/-- `convertClientTool` minus the throw: `Option.none` models the thrown
`Invalid JSON Schema` error, which `convertOpenAITools` catches. -/
def convertClientTool (t : OpenAITool) : Option ConvertedTool :=
  if validateJsonSchema t.parameters then
    Option.some { name := t.name
                  metadata := { name := t.name
                                executionMode := .client
                                originalDefinition := Option.some t } }
  else
    Option.none

/-- `convertOpenAITools` (tools/converter.ts): convert every declared tool as
a client tool; a tool whose conversion throws is logged and skipped, never
fatal. -/
def convertOpenAITools (ts : List OpenAITool) : List ConvertedTool :=
  ts.filterMap convertClientTool

/-! ## packages/tools/src/index.ts -/

/-- Key order of `defaultToolset` (insertion order of the object literal). -/
def defaultToolsetNames : List String :=
  ["calculator", "getCurrentTime", "generateUUID"]

/-- `getActiveTools(enabledTools?)`: `!enabledTools || enabledTools.length
=== 0` returns the whole default toolset; otherwise keeps the requested
names that exist in `defaultToolset` in request order (duplicate requests
collapse onto one object key, keeping the first position). The executables
are opaque, so the toolset is represented by its ordered key list. -/
def getActiveTools (enabledTools : Option (List String)) : List String :=
  match enabledTools with
  | Option.none => defaultToolsetNames
  | Option.some l =>
    if l.isEmpty then defaultToolsetNames
    else (l.filter (fun n => defaultToolsetNames.contains n)).dedup

/-! ## packages/agents/src/tools/converter.ts — mergeTools -/

/-- `OpenAIToolChoice`. -/
inductive OpenAIToolChoice where
  | auto
  | none
  | required
  | function (name : String)
deriving DecidableEq, Repr

/-- Provenance of a value stored in the merged `toolSet` object. -/
inductive ToolOrigin where
  | client (t : ConvertedTool)
  | builtin (name : String)
deriving DecidableEq, Repr

/-- In-place update of a JS object viewed as an association list: an
existing key keeps its position and gets the new value, a fresh key is
appended. -/
def setAssoc (l : List (String × α)) (k : String) (v : α) : List (String × α) :=
  match l with
  | [] => [(k, v)]
  | (k0, v0) :: rest =>
    if k0 = k then (k0, v) :: rest else (k0, v0) :: setAssoc rest k v

/-- First-match lookup, i.e. JS property read on the object. -/
def lookupAssoc (l : List (String × α)) (k : String) : Option α :=
  match l with
  | [] => Option.none
  | (k0, v0) :: rest => if k0 = k then Option.some v0 else lookupAssoc rest k

/-- `MergedTools` (converter.ts). -/
structure MergedTools where
  toolSet : List (String × ToolOrigin)
  metadata : List (String × ToolMetadata)
  clientToolNames : List String
  builtinToolNames : List String
deriving DecidableEq, Repr

/-- The `result` initial value in `mergeTools`. -/
def emptyMergedTools : MergedTools :=
  { toolSet := [], metadata := [], clientToolNames := [], builtinToolNames := [] }

/-- `MergeToolsOptions`. -/
structure MergeToolsOptions where
  clientTools : List OpenAITool
  enabledBuiltinTools : Option (List String)
  toolChoice : Option OpenAIToolChoice
  parallelToolCalls : Option Bool
deriving DecidableEq, Repr

/-- The `shouldIncludeTool` closure in `mergeTools`. -/
def shouldIncludeTool (toolChoice : Option OpenAIToolChoice) (toolName : String) : Bool :=
  match toolChoice with
  | Option.none => true
  | Option.some .auto => true
  | Option.some .none => false
  | Option.some .required => true
  | Option.some (.function n) => toolName == n

/-- The first loop of `mergeTools`: add client tools (they take precedence),
skipping any filtered out by tool_choice. -/
def addClientTools (tc : Option OpenAIToolChoice) :
    List ConvertedTool → MergedTools → MergedTools
  | [], acc => acc
  | c :: cs, acc =>
    if shouldIncludeTool tc c.name then
      addClientTools tc cs
        { acc with
          toolSet := setAssoc acc.toolSet c.name (ToolOrigin.client c)
          metadata := setAssoc acc.metadata c.name c.metadata
          clientToolNames := acc.clientToolNames ++ [c.name] }
    else
      addClientTools tc cs acc

/-- The second loop of `mergeTools`: add built-in tools, skipping any name
already present in the tool set (client precedence, logged and not
overwritten) and any filtered out by tool_choice. -/
def addBuiltinTools (tc : Option OpenAIToolChoice) :
    List String → MergedTools → MergedTools
  | [], acc => acc
  | n :: ns, acc =>
    if (lookupAssoc acc.toolSet n).isSome then
      addBuiltinTools tc ns acc
    else if shouldIncludeTool tc n then
      addBuiltinTools tc ns
        { acc with
          toolSet := setAssoc acc.toolSet n (ToolOrigin.builtin n)
          metadata := setAssoc acc.metadata n
            { name := n, executionMode := .server, originalDefinition := Option.none }
          builtinToolNames := acc.builtinToolNames ++ [n] }
    else
      addBuiltinTools tc ns acc

/-- Both insertion loops of `mergeTools`, before the final tool_choice
validation. -/
def mergeToolsRaw (opts : MergeToolsOptions) : MergedTools :=
  addBuiltinTools opts.toolChoice (getActiveTools opts.enabledBuiltinTools)
    (addClientTools opts.toolChoice (convertOpenAITools opts.clientTools) emptyMergedTools)

/-- The error message thrown when a specifically requested tool is absent. -/
def missingToolMessage (name : String) : String :=
  "Tool \"" ++ name ++ "\" specified in tool_choice not found in available tools"

/-- `mergeTools` (converter.ts): run both insertion loops, then, when
tool_choice requested one specific function, fail if that name is absent
from the merged tool set. `Except.error` models the thrown `Error`. -/
def mergeTools (opts : MergeToolsOptions) : Except String MergedTools :=
  let result := mergeToolsRaw opts
  match opts.toolChoice with
  | Option.some (.function requested) =>
    if (lookupAssoc result.toolSet requested).isSome then
      Except.ok result
    else
      Except.error (missingToolMessage requested)
  | _ => Except.ok result

/-- A tool named `name` survives conversion, the enable-list filter and the
selection predicate of `toolChoice = {specific: name}`: either some declared
tool of that name converted successfully, or a built-in tool of that name is
active. (Under the specific selection predicate, a surviving tool of that
name is exactly what ends up inserted.) -/
def specificSurvivor (opts : MergeToolsOptions) (name : String) : Prop :=
  (∃ c ∈ convertOpenAITools opts.clientTools, c.name = name)
    ∨ name ∈ getActiveTools opts.enabledBuiltinTools

instance (opts : MergeToolsOptions) (name : String) :
    Decidable (specificSurvivor opts name) := by
  unfold specificSurvivor; infer_instance

/-! ## packages/agents/src/agents/plan-act.agent.ts — data model

`PlanSchema` and `actStepSchema`. The newer revision of the agent adds an
optional `toolStrategy` hint to a plan step; the step type below carries it
so one `PlanStep` serves both revisions (the older revision's steps simply
have `toolStrategy = none`). -/

/-- `toolStrategy` object of a plan step: all fields optional. -/
structure ToolStrategy where
  toolName : Option String
  reason : Option String
  fallbackToInternal : Option Bool
deriving DecidableEq, Repr

/-- A fully parsed `PlanStep`. -/
structure PlanStep where
  title : String
  instructions : String
  relevantContext : String
  toolStrategy : Option ToolStrategy
deriving DecidableEq, Repr

/-- A `Plan`: `{ steps: PlanStep[] }`. -/
structure Plan where
  steps : List PlanStep
deriving DecidableEq, Repr

/-- A fully parsed `actStepSchema` object (an ActionRecord):
`addPlanSteps`/`addPlanStepsReason` optional. -/
structure ActStep where
  action : String
  observation : String
  addPlanSteps : Option (List PlanStep)
  addPlanStepsReason : Option String
deriving DecidableEq, Repr

/-- A streamed partial plan step: every field may still be absent. -/
structure PartialPlanStep where
  title : Option String
  instructions : Option String
  relevantContext : Option String
  toolStrategy : Option ToolStrategy
deriving DecidableEq, Repr

/-- A streamed partial plan object: the `steps` key may be absent, and
array elements may themselves be absent or partial. -/
structure PartialPlan where
  steps : Option (List (Option PartialPlanStep))
deriving DecidableEq, Repr

/-- A streamed `PartialActStep` (plan-act.agent.ts): all fields optional.
-/
structure PartialActStep where
  action : Option String
  observation : Option String
  addPlanSteps : Option (List (Option PartialPlanStep))
  addPlanStepsReason : Option String
deriving DecidableEq, Repr

/-- Zod parse of one plan step: succeeds iff `title`, `instructions` and
`relevantContext` are all present (strings). -/
def parsePlanStep (p : PartialPlanStep) : Option PlanStep :=
  match p.title, p.instructions, p.relevantContext with
  | Option.some t, Option.some i, Option.some r =>
    Option.some { title := t, instructions := i, relevantContext := r,
                  toolStrategy := p.toolStrategy }
  | _, _, _ => Option.none

/-- Zod parse of a `steps` array: succeeds iff every element is present
and parses. -/
def parsePlanSteps : List (Option PartialPlanStep) → Option (List PlanStep)
  | [] => Option.some []
  | Option.none :: _ => Option.none
  | Option.some p :: rest =>
    match parsePlanStep p, parsePlanSteps rest with
    | Option.some s, Option.some ss => Option.some (s :: ss)
    | _, _ => Option.none

/-- `PlanSchema.safeParse` on a streamed partial: the `steps` key must be
present and every step must parse. -/
def parsePlan (p : PartialPlan) : Option Plan :=
  match p.steps with
  | Option.none => Option.none
  | Option.some l =>
    match parsePlanSteps l with
    | Option.some ss => Option.some { steps := ss }
    | Option.none => Option.none

/-- `PlanActAgent.toPlanSteps`: a falsy candidate gives `[]`; otherwise
`PlanStepsSchema.safeParse` and `[]` on failure. -/
def toPlanSteps (candidate : Option (List (Option PartialPlanStep))) : List PlanStep :=
  match candidate with
  | Option.none => []
  | Option.some l => (parsePlanSteps l).getD []

/-- JS truthiness of an optional string: present and non-empty. -/
def truthyStr (s : Option String) : Bool :=
  match s with
  | Option.none => false
  | Option.some v => v != ""

/-- `reason ? { addPlanStepsReason: reason } : {}` — keep the reason only
when truthy. -/
def reasonField (r : Option String) : Option String :=
  if truthyStr r then r else Option.none

/-! ## Plan-phase partial collection

`PlanActAgent.run` keeps `resolvedPlan` = the data of the most recent
partial that passes `PlanSchema.safeParse` (skipping falsy partials).
The adapter (`createPlanActChatAdapter`) instead keeps
`latestValidPlan` = the most recent partial object that merely *has* a
`steps` key, without validating it. -/

/-- The `planCollector` loop of `PlanActAgent.run`: fold over the partial
stream keeping the last successful `PlanSchema.safeParse`. -/
def collectPlanAgent (ps : List (Option PartialPlan)) : Option Plan :=
  ps.foldl
    (fun acc p =>
      match p with
      | Option.none => acc
      | Option.some pp =>
        match parsePlan pp with
        | Option.some plan => Option.some plan
        | Option.none => acc)
    Option.none

/-- The `planPartial` loop of the adapter: fold over the partial stream
keeping the last partial that has a `steps` key (`'steps' in partial`),
with no validation. -/
def collectPlanAdapter (ps : List (Option PartialPlan)) : Option PartialPlan :=
  ps.foldl
    (fun acc p =>
      match p with
      | Option.none => acc
      | Option.some pp =>
        if pp.steps.isSome then Option.some pp else acc)
    Option.none

/-- `resolvedPlan ?? PlanSchema.parse({ steps: [] })` in `PlanActAgent.run`. -/
def resolvePlanAgent (ps : List (Option PartialPlan)) : Plan :=
  (collectPlanAgent ps).getD { steps := [] }

/-- `latestValidPlan ?? { steps: [] }` in the adapter. -/
def resolvePlanAdapter (ps : List (Option PartialPlan)) : PartialPlan :=
  (collectPlanAdapter ps).getD { steps := Option.some [] }

/-! ## Act phase, structured-output revision

`runActPhase` of the structured-output revision of plan-act.agent.ts:
per queue item one model call; the `partialCollector` walks the partial
stream, and each partial whose `action` and `observation` are truthy
(a) prepends its parsed `addPlanSteps` (original order, front of queue) and
(b) overwrites `lastAction`. -/

/-- One step of the `partialCollector` loop over state
(work queue, `lastAction`). -/
def applyActChunk (st : List PlanStep × Option ActStep) (p : Option PartialActStep) :
    List PlanStep × Option ActStep :=
  match p with
  | Option.none => st
  | Option.some pp =>
    match pp.action, pp.observation with
    | Option.some a, Option.some o =>
      if a != "" && o != "" then
        let additions := toPlanSteps pp.addPlanSteps
        (additions ++ st.1,
         Option.some
           { action := a
             observation := o
             addPlanSteps := if additions = [] then Option.none else Option.some additions
             addPlanStepsReason :=
               if additions = [] then Option.none else reasonField pp.addPlanStepsReason })
      else st
    | _, _ => st

/-- A whole iteration's `partialCollector`: fold the partial stream over
the queue (already missing the popped current step), starting with no
`lastAction`. -/
def runActIterA (chunks : List (Option PartialActStep)) (queue : List PlanStep) :
    List PlanStep × Option ActStep :=
  chunks.foldl applyActChunk (queue, Option.none)

/-- Net queue prefix an iteration's partial stream prepends (independent of
the queue it acts on, see `runActIterA_decompose`). -/
def iterAdditions (chunks : List (Option PartialActStep)) : List PlanStep :=
  (runActIterA chunks []).1

/-- The `lastAction` an iteration's partial stream produces (independent of
the queue it acts on, see `runActIterA_decompose`). -/
def iterLast (chunks : List (Option PartialActStep)) : Option ActStep :=
  (runActIterA chunks []).2

/-- Queue prefix one partial chunk prepends: the parsed `addPlanSteps` of a
chunk whose `action` and `observation` are truthy, else nothing. -/
def chunkAdds (p : Option PartialActStep) : List PlanStep :=
  match p with
  | Option.none => []
  | Option.some pp =>
    match pp.action, pp.observation with
    | Option.some a, Option.some o =>
      if a != "" && o != "" then toPlanSteps pp.addPlanSteps else []
    | _, _ => []

/-- The `lastAction` value one partial chunk writes (`none` = it leaves
`lastAction` untouched). -/
def chunkRecord (p : Option PartialActStep) : Option ActStep :=
  match p with
  | Option.none => Option.none
  | Option.some pp =>
    match pp.action, pp.observation with
    | Option.some a, Option.some o =>
      if a != "" && o != "" then
        Option.some
          { action := a
            observation := o
            addPlanSteps :=
              if toPlanSteps pp.addPlanSteps = [] then Option.none
              else Option.some (toPlanSteps pp.addPlanSteps)
            addPlanStepsReason :=
              if toPlanSteps pp.addPlanSteps = [] then Option.none
              else reasonField pp.addPlanStepsReason }
      else Option.none
    | _, _ => Option.none

/-- `lastAction` after one chunk, given the previous `lastAction`. -/
def chunkLast (last : Option ActStep) (p : Option PartialActStep) : Option ActStep :=
  match chunkRecord p with
  | Option.some r => Option.some r
  | Option.none => last

/-- Result of an Act phase: the collected actions, the remaining queue, the
final `iterationCount` and the popped steps in execution order. -/
structure ActResult where
  actions : List ActStep
  queue : List PlanStep
  iterations : Nat
  executed : List PlanStep
deriving DecidableEq, Repr

/-- The `while (planQueue.length > 0 && iterationCount < MAX_ACT_ITERATIONS)`
loop of the structured-output revision. `fuel = MAX_ACT_ITERATIONS -
iterationCount` (so the guard `iterationCount < MAX` is `fuel > 0`), `iter`
is the number of finished iterations, and `oracle iter` is the partial
stream the model produces for iteration `iter`. -/
def actLoopA (oracle : Nat → List (Option PartialActStep)) :
    Nat → Nat → List PlanStep → List ActStep → List PlanStep → ActResult
  | 0, iter, queue, actions, executed =>
    { actions := actions, queue := queue, iterations := iter, executed := executed }
  | _ + 1, iter, [], actions, executed =>
    { actions := actions, queue := [], iterations := iter, executed := executed }
  | fuel + 1, iter, currentStep :: rest, actions, executed =>
    let st := runActIterA (oracle iter) rest
    let actions1 := match st.2 with
      | Option.some a => actions ++ [a]
      | Option.none => actions
    actLoopA oracle fuel (iter + 1) st.1 actions1 (executed ++ [currentStep])

/-- `runActPhase` (structured-output revision): queue seeded from the plan,
`MAX_ACT_ITERATIONS = actSteps * 2`, `iterationCount = 0`, empty history. -/
def runActPhaseA (actSteps : Nat) (plan : Plan)
    (oracle : Nat → List (Option PartialActStep)) : ActResult :=
  actLoopA oracle (actSteps * 2) 0 plan.steps [] []

/-! ## Act phase, text-parsing revision

The newer `runActPhase` drops structured output: a `textCollector`
accumulates the text stream and regex-parses an action/observation pair
from it; stream errors are caught, a `ClientExecutionRequiredError`
becomes a synthetic client-tool ActionRecord, and the loop continues. The
regex extraction itself is abstracted as the `parseText` parameter: no
claim depends on which action/observation strings it extracts, only on
whether a record is produced. -/

/-- What the model/stream produces for one iteration of the text-parsing
revision: the accumulated full text, and the error (if any) the
`for await` over `fullStream` threw. -/
inductive ActStreamError where
  | clientExec (toolName : String) (toolCallId : String)
  | other (msg : String)
deriving DecidableEq, Repr

/-- One iteration's model outcome for the text-parsing revision. -/
structure ActBIter where
  fullText : String
  streamError : Option ActStreamError
deriving DecidableEq, Repr

/-- The synthetic ActionRecord created when a `ClientExecutionRequiredError`
is caught. -/
def clientToolRecord (toolName toolCallId : String) : ActStep :=
  { action := "Attempted to call client tool: " ++ toolName ++ " (" ++ toolCallId ++ ")"
    observation := "Client tool requires execution on client side. Tool: " ++ toolName
      ++ ". This tool call needs to be sent to the client for execution."
    addPlanSteps := Option.none
    addPlanStepsReason := Option.none }

/-- The generic fallback record used when no error occurred and no action
could be parsed from the text. -/
def genericActRecord : ActStep :=
  { action := "Processed plan step"
    observation := "Action completed (details not explicitly parsed from text response)"
    addPlanSteps := Option.none
    addPlanStepsReason := Option.none }

/-- The `lastAction` an iteration of the text-parsing revision appends
(`none` = nothing appended): the `textCollector` parses a record from a
non-empty text; a caught `ClientExecutionRequiredError` then *overwrites*
it with the synthetic record; any other stream error keeps whatever the
text produced; with no error, a missing record falls back to the generic
one. -/
def actBLastAction (parseText : String → String × String) (it : ActBIter) : Option ActStep :=
  let fromText : Option ActStep :=
    if it.fullText = "" then Option.none
    else Option.some
      { action := (parseText it.fullText).1
        observation := (parseText it.fullText).2
        addPlanSteps := Option.none
        addPlanStepsReason := Option.none }
  match it.streamError with
  | Option.some (.clientExec toolName toolCallId) =>
    Option.some (clientToolRecord toolName toolCallId)
  | Option.some (.other _) => fromText
  | Option.none => Option.some (fromText.getD genericActRecord)

/-- The while loop of the text-parsing revision (the `planQueue.length ===
0` early return coincides with the empty-queue exit). -/
def actLoopB (parseText : String → String × String) (oracle : Nat → ActBIter) :
    Nat → Nat → List PlanStep → List ActStep → List PlanStep → ActResult
  | 0, iter, queue, actions, executed =>
    { actions := actions, queue := queue, iterations := iter, executed := executed }
  | _ + 1, iter, [], actions, executed =>
    { actions := actions, queue := [], iterations := iter, executed := executed }
  | fuel + 1, iter, currentStep :: rest, actions, executed =>
    let actions1 := match actBLastAction parseText (oracle iter) with
      | Option.some a => actions ++ [a]
      | Option.none => actions
    actLoopB parseText oracle fuel (iter + 1) rest actions1 (executed ++ [currentStep])

/-- `runActPhase` (text-parsing revision). -/
def runActPhaseB (parseText : String → String × String) (actSteps : Nat) (plan : Plan)
    (oracle : Nat → ActBIter) : ActResult :=
  actLoopB parseText oracle (actSteps * 2) 0 plan.steps [] []

/-! ## The pipeline `PlanActAgent.run`

Plan partials are collected (accept-last of valid parses, `{steps: []}`
fallback), the Act phase runs on the resolved plan, and the Response phase
makes one model call over the rendered plan/action context; its streamed
text is the model's answer, supplied by the oracle. -/

/-- Everything the model backend produces during one `run`. -/
structure AgentOracle where
  planPartials : List (Option PartialPlan)
  actChunks : Nat → List (Option PartialActStep)
  responseText : String

/-- Result of one `PlanActAgent.run`: resolved plan, the action history
handed to the Response phase, the Act phase iteration count, and the final
answer text streamed by the Response phase. -/
structure RunResult where
  plan : Plan
  actions : List ActStep
  actIterations : Nat
  text : String
deriving DecidableEq, Repr

/-- `PlanActAgent.run` (structured-output revision): plan → act → response.
-/
def agentRun (actSteps : Nat) (o : AgentOracle) : RunResult :=
  let plan := resolvePlanAgent o.planPartials
  let act := runActPhaseA actSteps plan o.actChunks
  { plan := plan
    actions := act.actions
    actIterations := act.iterations
    text := o.responseText }

/-- `createPlanActChatAdapter(...).run`: `mergeTools` runs first; a merge
error propagates before any phase (and hence any model call) is started. -/
def adapterRun (opts : MergeToolsOptions) (actSteps : Nat) (o : AgentOracle) :
    Except String RunResult :=
  match mergeTools opts with
  | Except.error e => Except.error e
  | Except.ok _ => Except.ok (agentRun actSteps o)

/-! ## Dual-channel streaming coordination (plan-act.adapter.ts `stream`)

`stream` starts an execution task (plan phase, resolving
`planCompletePromise`, then act phase, resolving `actCompletePromise`,
then the task's own promise resolves), a reasoning generator (awaits
plan-complete, yields one block per plan step, awaits act-complete,
yields one block per action, and in its `finally` resolves
`reasoningCompletePromise`) and a text generator (awaits the execution
promise, then — iff `reasoning_effort` was supplied — awaits
reasoning-complete, then yields the Response phase's text deltas).

The cooperative interleaving is modelled as a labelled transition system:
one transition per await-separated atomic segment of those tasks. `p` is
the number of plan steps of the resolved plan, `a` the number of collected
actions, `t` the number of text deltas of the Response phase. On the
execution task's error path, the catch block resolves the not-yet-resolved
completion promises with `{steps: []}` / `[]` and rejects the execution
promise, so the text generator's `await executionPromise` throws and no
text delta is ever yielded there; the `fail` transitions model this. -/

/-- An observable chunk on one of the two consumer-facing channels,
identified by channel and per-channel sequence number. -/
inductive Chunk where
  | reasoning (i : Nat)
  | text (i : Nat)
deriving DecidableEq, Repr

/-- Progress of the execution task. -/
inductive ExecPhase where
  | planning
  | acting
  | execDone
  | failed
deriving DecidableEq, Repr

/-- Joint state of the three tasks plus the emitted chunk trace. -/
structure ChanState where
  exec : ExecPhase
  planBlocks : Option Nat
  actBlocks : Option Nat
  reasonPos : Nat
  reasonDone : Bool
  textPos : Nat
  trace : List Chunk
deriving DecidableEq, Repr

/-- Initial state: nothing resolved, nothing emitted. -/
def initChanState : ChanState :=
  { exec := .planning, planBlocks := Option.none, actBlocks := Option.none,
    reasonPos := 0, reasonDone := false, textPos := 0, trace := [] }

/-- One atomic step of the interleaved `stream` tasks.
`includeReasoning = typeof input.reasoning_effort !== 'undefined'`. -/
inductive AdapterStep (includeReasoning : Bool) (p a t : Nat) : ChanState → ChanState → Prop where
  /-- Plan phase finishes: `resolvePlanComplete(plan)` (a `p`-step plan). -/
  | planComplete (s : ChanState) (h : s.exec = .planning) :
      AdapterStep includeReasoning p a t s
        { s with exec := .acting, planBlocks := Option.some p }
  /-- Act phase finishes: `resolveActComplete(actions)` (`a` actions), then
  the execution promise resolves. -/
  | actComplete (s : ChanState) (h : s.exec = .acting) :
      AdapterStep includeReasoning p a t s
        { s with exec := .execDone, actBlocks := Option.some a }
  /-- Plan phase fails: the catch resolves both completion promises with
  empty values and rejects the execution promise. -/
  | planFail (s : ChanState) (h : s.exec = .planning) :
      AdapterStep includeReasoning p a t s
        { s with exec := .failed, planBlocks := Option.some 0, actBlocks := Option.some 0 }
  /-- Act phase fails: the plan promise is already resolved; the catch
  resolves the act promise empty and rejects the execution promise. -/
  | actFail (s : ChanState) (h : s.exec = .acting) :
      AdapterStep includeReasoning p a t s
        { s with exec := .failed, actBlocks := Option.some 0 }
  /-- Reasoning generator yields the next plan-derived block (only after
  `planCompletePromise` resolved). -/
  | reasonEmitPlan (s : ChanState) (pb : Nat) (hr : includeReasoning = true)
      (hp : s.planBlocks = Option.some pb) (hlt : s.reasonPos < pb) :
      AdapterStep includeReasoning p a t s
        { s with reasonPos := s.reasonPos + 1,
                 trace := s.trace ++ [Chunk.reasoning s.reasonPos] }
  /-- Reasoning generator yields the next action-derived block (only after
  all plan blocks and after `actCompletePromise` resolved). -/
  | reasonEmitAct (s : ChanState) (pb ab : Nat) (hr : includeReasoning = true)
      (hp : s.planBlocks = Option.some pb) (ha : s.actBlocks = Option.some ab)
      (hge : pb ≤ s.reasonPos) (hlt : s.reasonPos < pb + ab) :
      AdapterStep includeReasoning p a t s
        { s with reasonPos := s.reasonPos + 1,
                 trace := s.trace ++ [Chunk.reasoning s.reasonPos] }
  /-- Reasoning generator completes; its `finally` resolves
  `reasoningCompletePromise`. -/
  | reasonFinish (s : ChanState) (pb ab : Nat) (hr : includeReasoning = true)
      (hp : s.planBlocks = Option.some pb) (ha : s.actBlocks = Option.some ab)
      (heq : s.reasonPos = pb + ab) (hnd : s.reasonDone = false) :
      AdapterStep includeReasoning p a t s { s with reasonDone := true }
  /-- Text generator yields the next Response-phase delta: only after the
  execution promise resolved, and, when reasoning was requested, after
  `reasoningCompletePromise` resolved. -/
  | textEmit (s : ChanState) (he : s.exec = .execDone)
      (hr : includeReasoning = true → s.reasonDone = true) (hlt : s.textPos < t) :
      AdapterStep includeReasoning p a t s
        { s with textPos := s.textPos + 1,
                 trace := s.trace ++ [Chunk.text s.textPos] }

/-- Reachability of the interleaved stream coordination. -/
def ChanReachable (includeReasoning : Bool) (p a t : Nat) (s : ChanState) : Prop :=
  Relation.ReflTransGen (AdapterStep includeReasoning p a t) initChanState s

/-- Inductive invariant of the stream coordination when reasoning is
requested: the completion promises resolve in phase order, the reasoning
channel signals completion only once all its blocks are out, text flows
only after execution finished and reasoning completed, and the trace is
always all reasoning chunks followed by all text chunks. -/
def chanInv (p a : Nat) (s : ChanState) : Prop :=
  (s.exec = .planning → s.planBlocks = Option.none ∧ s.actBlocks = Option.none)
  ∧ (s.exec = .acting → s.planBlocks = Option.some p ∧ s.actBlocks = Option.none)
  ∧ (s.exec = .execDone → s.planBlocks = Option.some p ∧ s.actBlocks = Option.some a)
  ∧ (s.reasonDone = true → ∃ pb ab, s.planBlocks = Option.some pb
      ∧ s.actBlocks = Option.some ab ∧ s.reasonPos = pb + ab)
  ∧ (0 < s.textPos → s.exec = .execDone ∧ s.reasonDone = true)
  ∧ s.trace = (List.range s.reasonPos).map Chunk.reasoning
      ++ (List.range s.textPos).map Chunk.text

/-! ## Example inputs used by witnesses -/

/-- A valid declared tool named `calculator`, colliding with the built-in of
the same name. -/
def exCalculatorTool : OpenAITool :=
  { name := "calculator", description := Option.none,
    parameters := { jtype := .object, properties := .none } }

/-- Merge options declaring `exCalculatorTool` with no tool_choice. -/
def exCollisionOpts : MergeToolsOptions :=
  { clientTools := [exCalculatorTool], enabledBuiltinTools := Option.none,
    toolChoice := Option.none, parallelToolCalls := Option.none }

/-- Merge options requesting the non-existent tool `ghost`. -/
def exGhostOpts : MergeToolsOptions :=
  { clientTools := [], enabledBuiltinTools := Option.none,
    toolChoice := Option.some (OpenAIToolChoice.function "ghost"),
    parallelToolCalls := Option.none }

/-- Merge options requesting the built-in tool `calculator` specifically. -/
def exCalcChoiceOpts : MergeToolsOptions :=
  { clientTools := [], enabledBuiltinTools := Option.none,
    toolChoice := Option.some (OpenAIToolChoice.function "calculator"),
    parallelToolCalls := Option.none }

/-- A trivial model oracle. -/
def exOracle : AgentOracle :=
  { planPartials := [], actChunks := fun _ => [], responseText := "The answer is 4." }

/-- `get actSteps() { return this.config.act?.steps ||
PlanActAgent.DEFAULT_ACT_STEPS; }` — JavaScript `||` treats `0` as falsy,
so an absent or zero configuration resolves to the default budget 5. -/
def actStepsResolved (cfg : Option Nat) : Nat :=
  match cfg with
  | Option.none => 5
  | Option.some n => if n = 0 then 5 else n

/-- A concrete plan step. -/
def exPlanStep (t : String) : PlanStep :=
  { title := t, instructions := "do", relevantContext := "ctx",
    toolStrategy := Option.none }

/-- A concrete complete partial plan step. -/
def exPartialStep (t : String) : PartialPlanStep :=
  { title := Option.some t, instructions := Option.some "do",
    relevantContext := Option.some "ctx", toolStrategy := Option.none }

/-- Act-phase oracle whose first iteration returns an ActionRecord adding
two steps and whose later iterations return plain well-formed records. -/
def exC3Oracle : Nat → List (Option PartialActStep) := fun j =>
  if j = 0 then
    [Option.some
      { action := Option.some "act0", observation := Option.some "obs0",
        addPlanSteps := Option.some
          [Option.some (exPartialStep "s1"), Option.some (exPartialStep "s2")],
        addPlanStepsReason := Option.some "because" }]
  else
    [Option.some
      { action := Option.some "a", observation := Option.some "o",
        addPlanSteps := Option.none, addPlanStepsReason := Option.none }]

/-- The parsed ActionRecord of `exC3Oracle 0`. -/
def exAct0 : ActStep :=
  { action := "act0", observation := "obs0",
    addPlanSteps := Option.some [exPlanStep "s1", exPlanStep "s2"],
    addPlanStepsReason := Option.some "because" }

/-- An 11-step plan, one more than twice the default act budget. -/
def exC9Plan : Plan :=
  { steps := List.replicate 11 (exPlanStep "s") }

/-- Act-phase oracle returning one well-formed, insertion-free record at
every iteration. -/
def exC9Oracle : Nat → List (Option PartialActStep) := fun _ =>
  [Option.some
    { action := Option.some "a", observation := Option.some "o",
      addPlanSteps := Option.none, addPlanStepsReason := Option.none }]

/-- Text-revision oracle whose every iteration throws
`ClientExecutionRequiredError("browser", "call1")`. -/
def exC6Oracle : Nat → ActBIter := fun _ =>
  { fullText := "",
    streamError := Option.some (ActStreamError.clientExec "browser" "call1") }

/-- A fully parseable streamed plan partial. -/
def exValidPartialPlan : PartialPlan :=
  { steps := Option.some [Option.some (exPartialStep "a")] }

/-- A malformed streamed plan partial: it has a `steps` key but its step is
incomplete, so `PlanSchema.safeParse` fails on it. -/
def exInvalidPartialPlan : PartialPlan :=
  { steps := Option.some
      [Option.some
        { title := Option.some "x", instructions := Option.none,
          relevantContext := Option.none, toolStrategy := Option.none }] }

/-- A partial stream ending in a malformed partial after a valid one. -/
def exC8Partials : List (Option PartialPlan) :=
  [Option.some exValidPartialPlan, Option.some exInvalidPartialPlan]

/-! ## Association-list lemmas -/

theorem lookupAssoc_setAssoc_self {α : Type} (l : List (String × α)) (k : String) (v : α) :
    lookupAssoc (setAssoc l k v) k = Option.some v := by
  induction l with
  | nil => simp [setAssoc, lookupAssoc]
  | cons kv rest ih =>
    obtain ⟨k0, v0⟩ := kv
    by_cases h : k0 = k
    · simp [setAssoc, lookupAssoc, h]
    · simp [setAssoc, lookupAssoc, h, ih]

theorem lookupAssoc_setAssoc_ne {α : Type} (l : List (String × α)) (k k2 : String) (v : α)
    (h : k2 ≠ k) : lookupAssoc (setAssoc l k v) k2 = lookupAssoc l k2 := by
  induction l with
  | nil =>
    simp only [setAssoc, lookupAssoc]
    rw [if_neg (fun he : k = k2 => h he.symm)]
  | cons kv rest ih =>
    obtain ⟨k0, v0⟩ := kv
    by_cases h0 : k0 = k
    · have hne : ¬ k0 = k2 := fun he => h (he.symm.trans h0)
      simp only [setAssoc, if_pos h0, lookupAssoc]
      rw [if_neg hne, if_neg hne]
    · simp only [setAssoc, if_neg h0, lookupAssoc]
      split
      · rfl
      · exact ih

theorem mem_setAssoc {α : Type} (l : List (String × α)) (k : String) (v : α)
    (kv2 : String × α) (h : kv2 ∈ setAssoc l k v) : kv2 ∈ l ∨ kv2.1 = k := by
  induction l with
  | nil =>
    simp only [setAssoc, List.mem_singleton] at h
    subst h; exact Or.inr rfl
  | cons kv rest ih =>
    obtain ⟨k0, v0⟩ := kv
    by_cases h0 : k0 = k
    · rw [setAssoc, if_pos h0] at h
      rcases List.mem_cons.mp h with h1 | h1
      · subst h1; exact Or.inr h0
      · exact Or.inl (List.mem_cons_of_mem _ h1)
    · rw [setAssoc, if_neg h0] at h
      rcases List.mem_cons.mp h with h1 | h1
      · subst h1; exact Or.inl (List.mem_cons_self _ _)
      · rcases ih h1 with h2 | h2
        · exact Or.inl (List.mem_cons_of_mem _ h2)
        · exact Or.inr h2

/-! ## mergeTools insertion-loop lemmas -/

theorem addClientTools_client_stable (tc : Option OpenAIToolChoice) (cs : List ConvertedTool) :
    ∀ (acc : MergedTools) (k : String) (t : ConvertedTool),
      lookupAssoc acc.toolSet k = Option.some (ToolOrigin.client t) →
      ∃ t2, lookupAssoc (addClientTools tc cs acc).toolSet k
        = Option.some (ToolOrigin.client t2) := by
  induction cs with
  | nil => exact fun acc k t h => ⟨t, h⟩
  | cons c cs ih =>
    intro acc k t h
    by_cases hin : shouldIncludeTool tc c.name = true
    · rw [addClientTools, if_pos hin]
      by_cases hk : c.name = k
      · subst hk
        exact ih _ _ c (lookupAssoc_setAssoc_self _ _ _)
      · refine ih _ _ t ?_
        rw [lookupAssoc_setAssoc_ne _ _ _ _ (fun he => hk he.symm)]
        exact h
    · rw [addClientTools, if_neg hin]
      exact ih acc k t h

theorem addClientTools_mem (tc : Option OpenAIToolChoice) (cs : List ConvertedTool) :
    ∀ (acc : MergedTools) (c : ConvertedTool), c ∈ cs → shouldIncludeTool tc c.name = true →
      ∃ t, lookupAssoc (addClientTools tc cs acc).toolSet c.name
        = Option.some (ToolOrigin.client t) := by
  induction cs with
  | nil => intro acc c h; exact absurd h (List.not_mem_nil c)
  | cons c0 cs ih =>
    intro acc c hmem hin
    rcases List.mem_cons.mp hmem with h1 | h1
    · subst h1
      rw [addClientTools, if_pos hin]
      exact addClientTools_client_stable tc cs _ _ c (lookupAssoc_setAssoc_self _ _ _)
    · by_cases hin0 : shouldIncludeTool tc c0.name = true
      · rw [addClientTools, if_pos hin0]; exact ih _ c h1 hin
      · rw [addClientTools, if_neg hin0]; exact ih _ c h1 hin

theorem addClientTools_builtinNames (tc : Option OpenAIToolChoice) (cs : List ConvertedTool) :
    ∀ acc : MergedTools, (addClientTools tc cs acc).builtinToolNames = acc.builtinToolNames := by
  induction cs with
  | nil => intro acc; rfl
  | cons c cs ih =>
    intro acc
    by_cases hin : shouldIncludeTool tc c.name = true
    · rw [addClientTools, if_pos hin]; exact ih _
    · rw [addClientTools, if_neg hin]; exact ih _

theorem addClientTools_keys (tc : Option OpenAIToolChoice) (cs : List ConvertedTool)
    (P : String → Prop) :
    ∀ acc : MergedTools, (∀ kv ∈ acc.toolSet, P kv.1) →
      (∀ c ∈ cs, shouldIncludeTool tc c.name = true → P c.name) →
      ∀ kv ∈ (addClientTools tc cs acc).toolSet, P kv.1 := by
  induction cs with
  | nil => exact fun acc hacc _ => hacc
  | cons c cs ih =>
    intro acc hacc hcs
    by_cases hin : shouldIncludeTool tc c.name = true
    · rw [addClientTools, if_pos hin]
      refine ih _ ?_ (fun c2 h2 => hcs c2 (List.mem_cons_of_mem _ h2))
      intro kv hkv
      rcases mem_setAssoc _ _ _ _ hkv with h1 | h1
      · exact hacc kv h1
      · exact h1 ▸ hcs c (List.mem_cons_self _ _) hin
    · rw [addClientTools, if_neg hin]
      exact ih _ hacc (fun c2 h2 => hcs c2 (List.mem_cons_of_mem _ h2))

theorem addBuiltinTools_lookup_stable (tc : Option OpenAIToolChoice) (ns : List String) :
    ∀ (acc : MergedTools) (k : String) (v : ToolOrigin),
      lookupAssoc acc.toolSet k = Option.some v →
      lookupAssoc (addBuiltinTools tc ns acc).toolSet k = Option.some v := by
  induction ns with
  | nil => exact fun acc k v h => h
  | cons n ns ih =>
    intro acc k v h
    by_cases hpres : (lookupAssoc acc.toolSet n).isSome = true
    · rw [addBuiltinTools, if_pos hpres]; exact ih acc k v h
    · rw [addBuiltinTools, if_neg hpres]
      by_cases hin : shouldIncludeTool tc n = true
      · rw [if_pos hin]
        refine ih _ k v ?_
        have hnk : k ≠ n := by
          intro he; subst he
          rw [h] at hpres; exact hpres rfl
        rw [lookupAssoc_setAssoc_ne _ _ _ _ hnk]
        exact h
      · rw [if_neg hin]; exact ih acc k v h

theorem addBuiltinTools_isSome_stable (tc : Option OpenAIToolChoice) (ns : List String)
    (acc : MergedTools) (k : String)
    (h : (lookupAssoc acc.toolSet k).isSome = true) :
    (lookupAssoc (addBuiltinTools tc ns acc).toolSet k).isSome = true := by
  obtain ⟨v, hv⟩ := Option.isSome_iff_exists.mp h
  rw [addBuiltinTools_lookup_stable tc ns acc k v hv]
  rfl

theorem addBuiltinTools_skip (tc : Option OpenAIToolChoice) (ns : List String) :
    ∀ (acc : MergedTools) (n : String),
      (lookupAssoc acc.toolSet n).isSome = true → n ∉ acc.builtinToolNames →
      n ∉ (addBuiltinTools tc ns acc).builtinToolNames := by
  induction ns with
  | nil => exact fun acc n _ h2 => h2
  | cons m ns ih =>
    intro acc n h1 h2
    by_cases hpres : (lookupAssoc acc.toolSet m).isSome = true
    · rw [addBuiltinTools, if_pos hpres]; exact ih acc n h1 h2
    · rw [addBuiltinTools, if_neg hpres]
      by_cases hin : shouldIncludeTool tc m = true
      · rw [if_pos hin]
        have hmn : m ≠ n := by
          intro he; subst he; exact hpres h1
        refine ih _ n ?_ ?_
        · have hnm : n ≠ m := fun he => hmn he.symm
          rw [lookupAssoc_setAssoc_ne _ _ _ _ hnm]; exact h1
        · intro hmem
          rcases List.mem_append.mp hmem with h3 | h3
          · exact h2 h3
          · exact hmn (List.mem_singleton.mp h3).symm
      · rw [if_neg hin]; exact ih acc n h1 h2

theorem addBuiltinTools_mem (tc : Option OpenAIToolChoice) (ns : List String) :
    ∀ (acc : MergedTools) (n : String), n ∈ ns → shouldIncludeTool tc n = true →
      (lookupAssoc (addBuiltinTools tc ns acc).toolSet n).isSome = true := by
  induction ns with
  | nil => intro acc n h; exact absurd h (List.not_mem_nil n)
  | cons m ns ih =>
    intro acc n hmem hin
    rcases List.mem_cons.mp hmem with h1 | h1
    · subst h1
      by_cases hpres : (lookupAssoc acc.toolSet n).isSome = true
      · rw [addBuiltinTools, if_pos hpres]
        exact addBuiltinTools_isSome_stable tc ns acc n hpres
      · rw [addBuiltinTools, if_neg hpres, if_pos hin]
        refine addBuiltinTools_isSome_stable tc ns _ n ?_
        rw [lookupAssoc_setAssoc_self]
        rfl
    · by_cases hpres : (lookupAssoc acc.toolSet m).isSome = true
      · rw [addBuiltinTools, if_pos hpres]; exact ih acc n h1 hin
      · rw [addBuiltinTools, if_neg hpres]
        by_cases hin0 : shouldIncludeTool tc m = true
        · rw [if_pos hin0]; exact ih _ n h1 hin
        · rw [if_neg hin0]; exact ih acc n h1 hin

theorem addBuiltinTools_keys (tc : Option OpenAIToolChoice) (ns : List String)
    (P : String → Prop) :
    ∀ acc : MergedTools, (∀ kv ∈ acc.toolSet, P kv.1) →
      (∀ n ∈ ns, shouldIncludeTool tc n = true → P n) →
      ∀ kv ∈ (addBuiltinTools tc ns acc).toolSet, P kv.1 := by
  induction ns with
  | nil => exact fun acc hacc _ => hacc
  | cons n ns ih =>
    intro acc hacc hns
    by_cases hpres : (lookupAssoc acc.toolSet n).isSome = true
    · rw [addBuiltinTools, if_pos hpres]
      exact ih acc hacc (fun m hm => hns m (List.mem_cons_of_mem _ hm))
    · rw [addBuiltinTools, if_neg hpres]
      by_cases hin : shouldIncludeTool tc n = true
      · rw [if_pos hin]
        refine ih _ ?_ (fun m hm => hns m (List.mem_cons_of_mem _ hm))
        intro kv hkv
        rcases mem_setAssoc _ _ _ _ hkv with h1 | h1
        · exact hacc kv h1
        · exact h1 ▸ hns n (List.mem_cons_self _ _) hin
      · rw [if_neg hin]
        exact ih acc hacc (fun m hm => hns m (List.mem_cons_of_mem _ hm))

/-! ## Claim C4, C7, C10 theorems -/

/-- Claim C4: with `toolChoice = {specific: name}`, if no tool of that name
survives conversion, enable-list filtering and the selection predicate,
`mergeTools` fails with a configuration error whose message names the
missing tool, and the adapter's run fails with that same error regardless
of anything the model would produce (so before any model call); when a tool
of that name does survive, the merge succeeds and the merged toolset
contains only that name. -/
theorem mergeTools_specific_requested (opts : MergeToolsOptions) (name : String)
    (hc : opts.toolChoice = Option.some (OpenAIToolChoice.function name)) :
    (¬ specificSurvivor opts name →
      mergeTools opts = Except.error (missingToolMessage name)
      ∧ ∀ (actSteps : Nat) (o : AgentOracle),
          adapterRun opts actSteps o = Except.error (missingToolMessage name))
    ∧ (specificSurvivor opts name →
      mergeTools opts = Except.ok (mergeToolsRaw opts)
      ∧ (lookupAssoc (mergeToolsRaw opts).toolSet name).isSome = true
      ∧ ∀ kv ∈ (mergeToolsRaw opts).toolSet, kv.1 = name) := by
  have hincl : ∀ k, shouldIncludeTool opts.toolChoice k = (k == name) := by
    intro k; rw [hc]; rfl
  constructor
  · intro hns
    have hclientKeys : ∀ kv ∈ (addClientTools opts.toolChoice
        (convertOpenAITools opts.clientTools) emptyMergedTools).toolSet, False := by
      refine addClientTools_keys _ _ (fun _ => False) emptyMergedTools ?_ ?_
      · intro kv hkv; simp [emptyMergedTools] at hkv
      · intro c hmem hin
        rw [hincl c.name] at hin
        exact hns (Or.inl ⟨c, hmem, eq_of_beq hin⟩)
    have hfinalKeys : ∀ kv ∈ (mergeToolsRaw opts).toolSet, False := by
      refine addBuiltinTools_keys _ _ (fun _ => False) _ hclientKeys ?_
      intro n hmem hin
      rw [hincl n] at hin
      exact hns (Or.inr (eq_of_beq hin ▸ hmem))
    have hempty : (mergeToolsRaw opts).toolSet = [] :=
      List.eq_nil_iff_forall_not_mem.mpr (fun kv hkv => hfinalKeys kv hkv)
    have herr : mergeTools opts = Except.error (missingToolMessage name) := by
      simp only [mergeTools, hc, hempty, lookupAssoc, Option.isSome_none,
        Bool.false_eq_true, if_false]
    refine ⟨herr, ?_⟩
    intro actSteps o
    simp only [adapterRun, herr]
  · intro hs
    have hsome : (lookupAssoc (mergeToolsRaw opts).toolSet name).isSome = true := by
      rcases hs with ⟨c, hmem, hname⟩ | hmem
      · have hin : shouldIncludeTool opts.toolChoice c.name = true := by
          rw [hincl c.name, hname]; exact beq_self_eq_true name
        obtain ⟨t, ht⟩ := addClientTools_mem opts.toolChoice _ emptyMergedTools c hmem hin
        rw [hname] at ht
        unfold mergeToolsRaw
        rw [addBuiltinTools_lookup_stable _ _ _ _ _ ht]
        rfl
      · refine addBuiltinTools_mem _ _ _ name hmem ?_
        rw [hincl name]; exact beq_self_eq_true name
    have hok : mergeTools opts = Except.ok (mergeToolsRaw opts) := by
      simp only [mergeTools, hc, hsome, if_true]
    refine ⟨hok, hsome, ?_⟩
    refine addBuiltinTools_keys _ _ (fun k => k = name) _ ?_ ?_
    · refine addClientTools_keys _ _ (fun k => k = name) emptyMergedTools ?_ ?_
      · intro kv hkv; simp [emptyMergedTools] at hkv
      · intro c _ hin; rw [hincl c.name] at hin; exact eq_of_beq hin
    · intro n _ hin; rw [hincl n] at hin; exact eq_of_beq hin

/-- Witness for C4: requesting the non-existent tool `ghost` makes the merge
(and the adapter run) fail with the error naming `ghost` before any model
output is consulted, while requesting the existing built-in `calculator`
succeeds with a toolset holding only `calculator`. -/
theorem mergeTools_specific_requested_witness :
    mergeTools exGhostOpts = Except.error (missingToolMessage "ghost")
    ∧ adapterRun exGhostOpts 5 exOracle = Except.error (missingToolMessage "ghost")
    ∧ mergeTools exCalcChoiceOpts = Except.ok (mergeToolsRaw exCalcChoiceOpts)
    ∧ (lookupAssoc (mergeToolsRaw exCalcChoiceOpts).toolSet "calculator").isSome = true := by
  have hg := mergeTools_specific_requested exGhostOpts "ghost" rfl
  have hc := mergeTools_specific_requested exCalcChoiceOpts "calculator" rfl
  have hg1 := hg.1 (by decide)
  have hc1 := hc.2 (by decide)
  exact ⟨hg1.1, hg1.2 5 exOracle, hc1.1, hc1.2.1⟩

/-- Claim C7: declared (client) tools take precedence in the merged toolset:
every converted declared tool passing the selection predicate ends up bound
to a client-origin entry in the executable map, and no name already bound
after the declared-tool pass is ever added as a built-in (colliding
built-ins are skipped, never overwriting). -/
theorem mergeTools_declared_precedence (opts : MergeToolsOptions) :
    (∀ c ∈ convertOpenAITools opts.clientTools,
      shouldIncludeTool opts.toolChoice c.name = true →
      ∃ t, lookupAssoc (mergeToolsRaw opts).toolSet c.name
        = Option.some (ToolOrigin.client t))
    ∧ (∀ n : String,
      (lookupAssoc (addClientTools opts.toolChoice (convertOpenAITools opts.clientTools)
          emptyMergedTools).toolSet n).isSome = true →
      n ∉ (mergeToolsRaw opts).builtinToolNames) := by
  constructor
  · intro c hmem hin
    obtain ⟨t, ht⟩ := addClientTools_mem opts.toolChoice _ emptyMergedTools c hmem hin
    exact ⟨t, addBuiltinTools_lookup_stable _ _ _ _ _ ht⟩
  · intro n hsome
    refine addBuiltinTools_skip _ _ _ n hsome ?_
    rw [addClientTools_builtinNames]
    simp [emptyMergedTools]

/-- Witness for C7: a declared tool named `calculator` shadows the built-in
`calculator`: the executable map binds the name to the client tool and the
built-in is skipped. -/
theorem mergeTools_declared_precedence_witness :
    (∃ t, lookupAssoc (mergeToolsRaw exCollisionOpts).toolSet "calculator"
      = Option.some (ToolOrigin.client t))
    ∧ "calculator" ∉ (mergeToolsRaw exCollisionOpts).builtinToolNames := by
  have h := mergeTools_declared_precedence exCollisionOpts
  constructor
  · exact h.1 { name := "calculator",
                metadata := { name := "calculator", executionMode := .client,
                              originalDefinition := Option.some exCalculatorTool } }
      (by decide) (by decide)
  · exact h.2 "calculator" (by decide)

/-- Claim C10: an empty `enabledBuiltinTools` list behaves exactly like an
omitted one — `getActiveTools` returns the full default toolset for both
`undefined` and `[]` (despite the `MergeToolsOptions` doc comment saying
"empty = all disabled"), so an empty enable-list never restricts the merged
toolset. -/
theorem getActiveTools_empty_list_no_restriction :
    getActiveTools (Option.some []) = defaultToolsetNames
    ∧ getActiveTools Option.none = defaultToolsetNames
    ∧ ∀ (ct : List OpenAITool) (tc : Option OpenAIToolChoice) (pc : Option Bool),
        mergeTools { clientTools := ct, enabledBuiltinTools := Option.some [],
                     toolChoice := tc, parallelToolCalls := pc }
          = mergeTools { clientTools := ct, enabledBuiltinTools := Option.none,
                         toolChoice := tc, parallelToolCalls := pc } := by
  exact ⟨rfl, rfl, fun ct tc pc => rfl⟩

/-! ## Act-phase lemmas (structured-output revision) -/

theorem applyActChunk_eq (q : List PlanStep) (last : Option ActStep)
    (p : Option PartialActStep) :
    applyActChunk (q, last) p = (chunkAdds p ++ q, chunkLast last p) := by
  rcases p with _ | pp
  · rfl
  · rcases pp with ⟨a, o, adds, rsn⟩
    rcases a with _ | a
    · rfl
    · rcases o with _ | o
      · rfl
      · by_cases h : (a != "" && o != "") = true
        · simp [applyActChunk, chunkAdds, chunkLast, chunkRecord, h]
        · simp [applyActChunk, chunkAdds, chunkLast, chunkRecord, h]

theorem foldl_applyActChunk_decompose (chunks : List (Option PartialActStep)) :
    ∀ (q : List PlanStep) (last : Option ActStep),
      chunks.foldl applyActChunk (q, last)
        = ((chunks.foldl applyActChunk ([], last)).1 ++ q,
           (chunks.foldl applyActChunk ([], last)).2) := by
  induction chunks with
  | nil => intro q last; rfl
  | cons p ps ih =>
    intro q last
    rw [List.foldl_cons, List.foldl_cons, applyActChunk_eq q last p,
        applyActChunk_eq [] last p]
    rw [ih (chunkAdds p ++ q) (chunkLast last p),
        ih (chunkAdds p ++ []) (chunkLast last p)]
    simp [List.append_assoc]

theorem runActIterA_decompose (chunks : List (Option PartialActStep))
    (q : List PlanStep) :
    runActIterA chunks q = (iterAdditions chunks ++ q, iterLast chunks) :=
  foldl_applyActChunk_decompose chunks q Option.none

theorem chunkAdds_eq_nil_of_chunkRecord_none (p : Option PartialActStep)
    (h : chunkRecord p = Option.none) : chunkAdds p = [] := by
  rcases p with _ | pp
  · rfl
  · rcases pp with ⟨a, o, adds, rsn⟩
    rcases a with _ | a
    · rfl
    · rcases o with _ | o
      · rfl
      · by_cases hb : (a != "" && o != "") = true
        · simp [chunkRecord, hb] at h
        · simp [chunkAdds, hb]

theorem chunkRecord_addPlanSteps (p : Option PartialActStep) (r : ActStep)
    (L : List PlanStep) (h : chunkRecord p = Option.some r)
    (hL : r.addPlanSteps = Option.some L) : L = chunkAdds p := by
  rcases p with _ | pp
  · simp [chunkRecord] at h
  · rcases pp with ⟨a, o, adds, rsn⟩
    rcases a with _ | a
    · simp [chunkRecord] at h
    · rcases o with _ | o
      · simp [chunkRecord] at h
      · by_cases hb : (a != "" && o != "") = true
        · simp only [chunkRecord, hb, if_true] at h
          by_cases hnil : toPlanSteps adds = []
          · rw [← Option.some.injEq] at hL
            obtain rfl := Option.some.inj h
            simp [hnil] at hL
          · obtain rfl := Option.some.inj h
            simp only [hnil, if_false] at hL
            have := Option.some.inj hL
            simp [chunkAdds, hb, ← this]
        · simp [chunkRecord, hb] at h

theorem foldl_applyActChunk_front (chunks : List (Option PartialActStep)) :
    ∀ (q : List PlanStep) (last : Option ActStep),
      (∀ (a0 : ActStep) (L0 : List PlanStep),
          last = Option.some a0 → a0.addPlanSteps = Option.some L0 → ∃ D, q = L0 ++ D) →
      ∀ (act : ActStep) (L : List PlanStep),
        (chunks.foldl applyActChunk (q, last)).2 = Option.some act →
        act.addPlanSteps = Option.some L →
        ∃ D, (chunks.foldl applyActChunk (q, last)).1 = L ++ D := by
  induction chunks with
  | nil =>
    intro q last hinv act L h2 hL
    exact hinv act L h2 hL
  | cons p ps ih =>
    intro q last hinv act L h2 hL
    rw [List.foldl_cons, applyActChunk_eq q last p] at h2 ⊢
    refine ih _ _ ?_ act L h2 hL
    intro a0 L0 hlast hL0
    cases hr : chunkRecord p with
    | some r =>
      have hra : r = a0 := by
        simp only [chunkLast, hr] at hlast
        exact Option.some.inj hlast
      have hLc : L0 = chunkAdds p :=
        chunkRecord_addPlanSteps p r L0 hr (by rw [hra]; exact hL0)
      exact ⟨q, by rw [hLc]⟩
    | none =>
      have hq : chunkAdds p = [] := chunkAdds_eq_nil_of_chunkRecord_none p hr
      have hlast2 : last = Option.some a0 := by
        simp only [chunkLast, hr] at hlast
        exact hlast
      obtain ⟨D, hD⟩ := hinv a0 L0 hlast2 hL0
      exact ⟨D, by rw [hq, hD]; simp⟩

theorem iterAdditions_front (chunks : List (Option PartialActStep)) (act : ActStep)
    (L : List PlanStep) (h2 : iterLast chunks = Option.some act)
    (hL : act.addPlanSteps = Option.some L) :
    ∃ E, iterAdditions chunks = L ++ E := by
  exact foldl_applyActChunk_front chunks [] Option.none
    (fun a0 L0 h _ => Option.noConfusion h) act L h2 hL

theorem actLoopA_nil (oracle : Nat → List (Option PartialActStep))
    (fuel iter : Nat) (actions : List ActStep) (executed : List PlanStep) :
    actLoopA oracle fuel iter [] actions executed
      = { actions := actions, queue := [], iterations := iter, executed := executed } := by
  cases fuel <;> rfl

theorem actLoopA_cons (oracle : Nat → List (Option PartialActStep))
    (fuel iter : Nat) (c : PlanStep) (rest : List PlanStep)
    (actions : List ActStep) (executed : List PlanStep) :
    actLoopA oracle (fuel + 1) iter (c :: rest) actions executed
      = actLoopA oracle fuel (iter + 1) (iterAdditions (oracle iter) ++ rest)
          (match iterLast (oracle iter) with
           | Option.some a => actions ++ [a]
           | Option.none => actions)
          (executed ++ [c]) := by
  rw [actLoopA, runActIterA_decompose]

theorem actLoopA_iterations_le (oracle : Nat → List (Option PartialActStep)) :
    ∀ (fuel iter : Nat) (queue : List PlanStep) (actions : List ActStep)
      (executed : List PlanStep),
      (actLoopA oracle fuel iter queue actions executed).iterations ≤ iter + fuel := by
  intro fuel
  induction fuel with
  | zero => intro iter queue actions executed; simp [actLoopA]
  | succ f ih =>
    intro iter queue actions executed
    cases queue with
    | nil => simp [actLoopA_nil]
    | cons c rest =>
      rw [actLoopA_cons]
      have h := ih (iter + 1) (iterAdditions (oracle iter) ++ rest)
        (match iterLast (oracle iter) with
         | Option.some a => actions ++ [a]
         | Option.none => actions)
        (executed ++ [c])
      omega

theorem actLoopA_executed_extends (oracle : Nat → List (Option PartialActStep)) :
    ∀ (fuel iter : Nat) (queue : List PlanStep) (actions : List ActStep)
      (executed : List PlanStep),
      ∃ tail, (actLoopA oracle fuel iter queue actions executed).executed
        = executed ++ tail := by
  intro fuel
  induction fuel with
  | zero => intro iter queue actions executed; exact ⟨[], by simp [actLoopA]⟩
  | succ f ih =>
    intro iter queue actions executed
    cases queue with
    | nil => exact ⟨[], by simp [actLoopA_nil]⟩
    | cons c rest =>
      rw [actLoopA_cons]
      obtain ⟨t, ht⟩ := ih (iter + 1) (iterAdditions (oracle iter) ++ rest)
        (match iterLast (oracle iter) with
         | Option.some a => actions ++ [a]
         | Option.none => actions)
        (executed ++ [c])
      exact ⟨c :: t, by rw [ht]; simp⟩

theorem actLoopA_front_run (oracle : Nat → List (Option PartialActStep))
    (L : List PlanStep) :
    ∀ (q0 : List PlanStep) (fuel iter : Nat) (actions : List ActStep)
      (executed : List PlanStep),
      (∀ j, iter ≤ j → j < iter + L.length → iterAdditions (oracle j) = []) →
      L.length ≤ fuel →
      ∃ actions2, actLoopA oracle fuel iter (L ++ q0) actions executed
        = actLoopA oracle (fuel - L.length) (iter + L.length) q0 actions2
            (executed ++ L) := by
  induction L with
  | nil =>
    intro q0 fuel iter actions executed _ _
    exact ⟨actions, by simp⟩
  | cons s L ih =>
    intro q0 fuel iter actions executed hno hfuel
    cases fuel with
    | zero => simp at hfuel
    | succ f =>
      rw [List.cons_append, actLoopA_cons]
      have h0 : iterAdditions (oracle iter) = [] := by
        refine hno iter le_rfl ?_
        simp only [List.length_cons]
        omega
      rw [h0, List.nil_append]
      obtain ⟨a2, ha2⟩ := ih q0 f (iter + 1)
        (match iterLast (oracle iter) with
         | Option.some a => actions ++ [a]
         | Option.none => actions)
        (executed ++ [s])
        (fun j h1 h2 => hno j (by omega) (by simp only [List.length_cons]; omega))
        (by simp only [List.length_cons] at hfuel; omega)
      refine ⟨a2, ?_⟩
      rw [ha2]
      have hfe : f + 1 - (s :: L).length = f - L.length := by
        simp only [List.length_cons]; omega
      have hie : iter + (s :: L).length = iter + 1 + L.length := by
        simp only [List.length_cons]; omega
      have hee : executed ++ s :: L = (executed ++ [s]) ++ L := by simp
      rw [hfe, hie, hee]

theorem length_filterMap_of_isSome {α β : Type} (l : List α) (f : α → Option β)
    (h : ∀ x ∈ l, (f x).isSome = true) : (l.filterMap f).length = l.length := by
  induction l with
  | nil => rfl
  | cons x xs ih =>
    have hx := h x (List.mem_cons_self _ _)
    obtain ⟨y, hy⟩ := Option.isSome_iff_exists.mp hx
    rw [List.filterMap_cons, hy]
    simp only [List.length_cons]
    rw [ih (fun z hz => h z (List.mem_cons_of_mem _ hz))]

theorem actLoopA_no_insertions (oracle : Nat → List (Option PartialActStep)) :
    ∀ (queue : List PlanStep) (fuel iter : Nat) (actions : List ActStep)
      (executed : List PlanStep),
      (∀ j, iter ≤ j → j < iter + queue.length → iterAdditions (oracle j) = []) →
      queue.length ≤ fuel →
      (actLoopA oracle fuel iter queue actions executed).actions
        = actions ++ (List.range queue.length).filterMap
            (fun k => iterLast (oracle (iter + k)))
      ∧ (actLoopA oracle fuel iter queue actions executed).iterations
        = iter + queue.length := by
  intro queue
  induction queue with
  | nil =>
    intro fuel iter actions executed _ _
    constructor <;> simp [actLoopA_nil]
  | cons c rest ih =>
    intro fuel iter actions executed hno hlen
    cases fuel with
    | zero => simp at hlen
    | succ f =>
      rw [actLoopA_cons]
      have h0 : iterAdditions (oracle iter) = [] := by
        refine hno iter le_rfl ?_
        simp only [List.length_cons]
        omega
      rw [h0, List.nil_append]
      obtain ⟨hact, hiter⟩ := ih f (iter + 1)
        (match iterLast (oracle iter) with
         | Option.some a => actions ++ [a]
         | Option.none => actions)
        (executed ++ [c])
        (fun j h1 h2 => hno j (by omega) (by simp only [List.length_cons]; omega))
        (by simp only [List.length_cons] at hlen; omega)
      have hfun : (fun k => iterLast (oracle (iter + 1 + k)))
          = ((fun k => iterLast (oracle (iter + k))) ∘ Nat.succ) := by
        funext k
        have he : iter + 1 + k = iter + Nat.succ k := by omega
        simp [Function.comp, he]
      constructor
      · rw [hact, List.length_cons, List.range_succ_eq_map, List.filterMap_cons]
        rw [List.filterMap_map, ← hfun]
        cases hlastc : iterLast (oracle iter) with
        | some r => simp [Nat.add_zero, hlastc]
        | none => simp [Nat.add_zero, hlastc]
      · rw [hiter, List.length_cons]
        omega

/-! ## Act-phase lemmas (text-parsing revision) -/

theorem actLoopB_nil (parseText : String → String × String) (oracle : Nat → ActBIter)
    (fuel iter : Nat) (actions : List ActStep) (executed : List PlanStep) :
    actLoopB parseText oracle fuel iter [] actions executed
      = { actions := actions, queue := [], iterations := iter, executed := executed } := by
  cases fuel <;> rfl

theorem actLoopB_iterations_le (parseText : String → String × String)
    (oracle : Nat → ActBIter) :
    ∀ (fuel iter : Nat) (queue : List PlanStep) (actions : List ActStep)
      (executed : List PlanStep),
      (actLoopB parseText oracle fuel iter queue actions executed).iterations
        ≤ iter + fuel := by
  intro fuel
  induction fuel with
  | zero => intro iter queue actions executed; simp [actLoopB]
  | succ f ih =>
    intro iter queue actions executed
    cases queue with
    | nil => simp [actLoopB_nil]
    | cons c rest =>
      rw [actLoopB]
      have h := ih (iter + 1) rest
        (match actBLastAction parseText (oracle iter) with
         | Option.some a => actions ++ [a]
         | Option.none => actions)
        (executed ++ [c])
      omega

theorem actLoopB_actions (parseText : String → String × String)
    (oracle : Nat → ActBIter) :
    ∀ (queue : List PlanStep) (fuel iter : Nat) (actions : List ActStep)
      (executed : List PlanStep),
      queue.length ≤ fuel →
      (actLoopB parseText oracle fuel iter queue actions executed).actions
        = actions ++ (List.range queue.length).filterMap
            (fun k => actBLastAction parseText (oracle (iter + k))) := by
  intro queue
  induction queue with
  | nil =>
    intro fuel iter actions executed _
    simp [actLoopB_nil]
  | cons c rest ih =>
    intro fuel iter actions executed hlen
    cases fuel with
    | zero => simp at hlen
    | succ f =>
      rw [actLoopB]
      have hact := ih f (iter + 1)
        (match actBLastAction parseText (oracle iter) with
         | Option.some a => actions ++ [a]
         | Option.none => actions)
        (executed ++ [c])
        (by simp only [List.length_cons] at hlen; omega)
      have hfun : (fun k => actBLastAction parseText (oracle (iter + 1 + k)))
          = ((fun k => actBLastAction parseText (oracle (iter + k))) ∘ Nat.succ) := by
        funext k
        have he : iter + 1 + k = iter + Nat.succ k := by omega
        simp [Function.comp, he]
      rw [hact, List.length_cons, List.range_succ_eq_map, List.filterMap_cons]
      rw [List.filterMap_map, ← hfun]
      cases hlastc : actBLastAction parseText (oracle iter) with
      | some r => simp [Nat.add_zero, hlastc]
      | none => simp [Nat.add_zero, hlastc]

theorem actLoopA_cons_some (oracle : Nat → List (Option PartialActStep))
    (fuel iter : Nat) (c : PlanStep) (rest : List PlanStep)
    (actions : List ActStep) (executed : List PlanStep) (a : ActStep)
    (h : iterLast (oracle iter) = Option.some a) :
    actLoopA oracle (fuel + 1) iter (c :: rest) actions executed
      = actLoopA oracle fuel (iter + 1) (iterAdditions (oracle iter) ++ rest)
          (actions ++ [a]) (executed ++ [c]) := by
  rw [actLoopA_cons, h]

theorem actBLastAction_isSome_of_no_error (parseText : String → String × String)
    (it : ActBIter) (h : it.streamError = Option.none) :
    (actBLastAction parseText it).isSome = true := by
  unfold actBLastAction
  rw [h]
  simp

/-! ## Plan-collector lemmas -/

theorem collectPlanAgent_eq_getLast (ps : List (Option PartialPlan)) :
    collectPlanAgent ps = (ps.filterMap (fun p => p.bind parsePlan)).getLast? := by
  induction ps using List.reverseRecOn with
  | nil => rfl
  | append_singleton xs x ih =>
    unfold collectPlanAgent at ih ⊢
    rw [List.foldl_append, List.filterMap_append]
    rcases x with _ | pp
    · simp [ih]
    · cases hp : parsePlan pp with
      | some plan => simp [hp]
      | none => simp [hp, ih]

theorem collectPlanAdapter_eq_getLast (ps : List (Option PartialPlan)) :
    collectPlanAdapter ps
      = (ps.filterMap (fun p => p.bind
          (fun pp => if pp.steps.isSome then Option.some pp else Option.none))).getLast? := by
  induction ps using List.reverseRecOn with
  | nil => rfl
  | append_singleton xs x ih =>
    unfold collectPlanAdapter at ih ⊢
    rw [List.foldl_append, List.filterMap_append]
    rcases x with _ | pp
    · simp [ih]
    · by_cases hs : pp.steps.isSome = true
      · simp [hs]
      · simp [hs, ih]

/-! ## Claim C2, C3, C5, C6, C9 theorems -/

/-- Claim C2: for every act-step budget `B`, every plan and every model
behaviour (in both act-loop revisions), the Act phase performs at most
`2×B` iterations; hitting the ceiling is not fatal — the pipeline always
proceeds to the Response phase with the accumulated action history and
streams the model's final answer. -/
theorem actphase_bounded_iterations :
    (∀ (B : Nat) (plan : Plan) (oracle : Nat → List (Option PartialActStep)),
        (runActPhaseA B plan oracle).iterations ≤ 2 * B)
    ∧ (∀ (parseText : String → String × String) (B : Nat) (plan : Plan)
        (oracle : Nat → ActBIter),
        (runActPhaseB parseText B plan oracle).iterations ≤ 2 * B)
    ∧ (∀ (B : Nat) (o : AgentOracle),
        (agentRun B o).actions
          = (runActPhaseA B (resolvePlanAgent o.planPartials) o.actChunks).actions
        ∧ (agentRun B o).text = o.responseText) := by
  refine ⟨?_, ?_, ?_⟩
  · intro B plan oracle
    have h := actLoopA_iterations_le oracle (B * 2) 0 plan.steps [] []
    unfold runActPhaseA
    omega
  · intro parseText B plan oracle
    have h := actLoopB_iterations_le parseText oracle (B * 2) 0 plan.steps [] []
    unfold runActPhaseB
    omega
  · intro B o
    exact ⟨rfl, rfl⟩

/-- Claim C3: when Act iteration `iter`'s parsed result carries
`addPlanSteps = L`, those steps are at the very front of the queue in
their original order, ahead of everything queued before the iteration
(`L ++ E ++ rest`, where `E` holds insertions from earlier partials of the
same iteration); hence, as the claim implicitly assumes, when the next
`L.length` iterations insert nothing and fit in the remaining budget, the
next `L.length` executed steps are exactly `L` in order, right after the
current step. -/
theorem actphase_added_steps_front (oracle : Nat → List (Option PartialActStep))
    (fuel iter : Nat) (c : PlanStep) (rest : List PlanStep)
    (actions : List ActStep) (executed : List PlanStep) (act : ActStep)
    (L : List PlanStep)
    (hlast : iterLast (oracle iter) = Option.some act)
    (hadd : act.addPlanSteps = Option.some L)
    (hno : ∀ j, iter + 1 ≤ j → j < iter + 1 + L.length → iterAdditions (oracle j) = [])
    (hfuel : L.length ≤ fuel) :
    (∃ E, runActIterA (oracle iter) rest = (L ++ (E ++ rest), Option.some act))
    ∧ (actLoopA oracle (fuel + 1) iter (c :: rest) actions executed).executed.take
        (executed.length + 1 + L.length) = executed ++ c :: L := by
  obtain ⟨E, hE⟩ := iterAdditions_front (oracle iter) act L hlast hadd
  constructor
  · refine ⟨E, ?_⟩
    rw [runActIterA_decompose, hE, hlast, List.append_assoc]
  · rw [actLoopA_cons_some oracle fuel iter c rest actions executed act hlast]
    rw [hE, List.append_assoc]
    obtain ⟨a2, ha2⟩ := actLoopA_front_run oracle L (E ++ rest) fuel (iter + 1)
      (actions ++ [act]) (executed ++ [c]) hno hfuel
    rw [ha2]
    obtain ⟨tail, htail⟩ := actLoopA_executed_extends oracle (fuel - L.length)
      (iter + 1 + L.length) (E ++ rest) a2 ((executed ++ [c]) ++ L)
    rw [htail]
    rw [show ((executed ++ [c]) ++ L) ++ tail = (executed ++ c :: L) ++ tail by simp]
    refine List.take_left' ?_
    simp [List.length_append]
    omega

/-- Witness for C3: iteration 0 of `exC3Oracle` adds steps `s1, s2`; on a
queue `[c, r]` the first three executed steps are `c, s1, s2`. -/
theorem actphase_added_steps_front_witness :
    (actLoopA exC3Oracle 3 0 [exPlanStep "c", exPlanStep "r"] [] []).executed.take 3
      = [exPlanStep "c", exPlanStep "s1", exPlanStep "s2"] := by
  have h := actphase_added_steps_front exC3Oracle 2 0 (exPlanStep "c") [exPlanStep "r"]
    [] [] exAct0 [exPlanStep "s1", exPlanStep "s2"]
    (by decide) (by decide)
    (by
      intro j h1 h2
      have hj : j ≠ 0 := by omega
      simp only [exC3Oracle, if_neg hj]
      decide)
    (by decide)
  simpa using h.2

/-- Claim C5: when the Plan phase observes zero successfully-parsed
partials, the resolved plan is the explicit empty plan, the Act phase runs
zero iterations producing an empty history, and the Response phase still
runs, returning the model's answer text. -/
theorem plan_empty_not_fatal (B : Nat) (o : AgentOracle)
    (h : collectPlanAgent o.planPartials = Option.none) :
    (agentRun B o).plan = { steps := [] }
    ∧ (agentRun B o).actIterations = 0
    ∧ (agentRun B o).actions = []
    ∧ (agentRun B o).text = o.responseText := by
  have hplan : resolvePlanAgent o.planPartials = { steps := [] } := by
    unfold resolvePlanAgent
    rw [h]
    rfl
  have hact : runActPhaseA B { steps := [] } o.actChunks
      = { actions := [], queue := [], iterations := 0, executed := [] } := by
    unfold runActPhaseA
    exact actLoopA_nil o.actChunks (B * 2) 0 [] []
  refine ⟨?_, ?_, ?_, rfl⟩ <;> simp [agentRun, hplan, hact]

/-- Witness for C5: with no plan partials at all, the run yields the empty
plan, zero act iterations, no actions, and the response text. -/
theorem plan_empty_not_fatal_witness :
    collectPlanAgent exOracle.planPartials = Option.none
    ∧ (agentRun 5 exOracle).plan = { steps := [] }
    ∧ (agentRun 5 exOracle).actIterations = 0
    ∧ (agentRun 5 exOracle).actions = []
    ∧ (agentRun 5 exOracle).text = "The answer is 4." := by
  have h := plan_empty_not_fatal 5 exOracle rfl
  exact ⟨rfl, h.1, h.2.1, h.2.2.1, h.2.2.2⟩

/-- Claim C6: an iteration whose model stream throws
`ClientExecutionRequiredError` (the dedicated signal carrying the tool name
and call id, with a message naming both) appends the synthetic
client-fulfillment ActionRecord and the loop simply continues with the
next queue item — the condition never aborts the phase. -/
theorem actphase_client_tool_nonfatal (parseText : String → String × String)
    (oracle : Nat → ActBIter) (fuel iter : Nat) (c : PlanStep) (rest : List PlanStep)
    (actions : List ActStep) (executed : List PlanStep) (toolName toolCallId : String)
    (h : (oracle iter).streamError
        = Option.some (ActStreamError.clientExec toolName toolCallId)) :
    actLoopB parseText oracle (fuel + 1) iter (c :: rest) actions executed
      = actLoopB parseText oracle fuel (iter + 1) rest
          (actions ++ [clientToolRecord toolName toolCallId]) (executed ++ [c])
    ∧ (clientToolRecord toolName toolCallId).action
        = "Attempted to call client tool: " ++ toolName ++ " (" ++ toolCallId ++ ")"
    ∧ ClientExecutionRequiredError.message
        { toolName := toolName, toolCallId := toolCallId }
        = "Tool \"" ++ toolName ++ "\" requires client-side execution. Tool call ID: "
          ++ toolCallId := by
  refine ⟨?_, rfl, rfl⟩
  have hl : actBLastAction parseText (oracle iter)
      = Option.some (clientToolRecord toolName toolCallId) := by
    unfold actBLastAction
    rw [h]
  rw [actLoopB, hl]

/-- Witness for C6: with every iteration requiring client execution of
`browser`, one loop step appends exactly the synthetic record and
continues. -/
theorem actphase_client_tool_nonfatal_witness :
    actLoopB (fun s => (s, s)) exC6Oracle 2 0 [exPlanStep "c"] [] []
      = actLoopB (fun s => (s, s)) exC6Oracle 1 1 []
          [clientToolRecord "browser" "call1"] [exPlanStep "c"] := by
  exact (actphase_client_tool_nonfatal (fun s => (s, s)) exC6Oracle 1 0 (exPlanStep "c")
    [] [] [] "browser" "call1" rfl).1

/-- Claim C9 (amended): with a plan of exactly `N` steps, no dynamic
insertions, well-formed model output at every step, *and `N` within the
`2×B` iteration ceiling*, the Act phase appends exactly one ActionRecord
per queue item, so the history has length `N` (in both act-loop
revisions). -/
theorem actphase_history_length (plan : Plan) (N B : Nat)
    (oracle : Nat → List (Option PartialActStep))
    (parseText : String → String × String) (oracleB : Nat → ActBIter)
    (hN : plan.steps.length = N) (hbud : N ≤ 2 * B)
    (hno : ∀ j, j < N → iterAdditions (oracle j) = [])
    (hwf : ∀ j, j < N → (iterLast (oracle j)).isSome = true)
    (herr : ∀ j, j < N → (oracleB j).streamError = Option.none) :
    (runActPhaseA B plan oracle).actions.length = N
    ∧ (runActPhaseB parseText B plan oracleB).actions.length = N := by
  constructor
  · unfold runActPhaseA
    obtain ⟨hact, _⟩ := actLoopA_no_insertions oracle plan.steps (B * 2) 0 [] []
      (fun j _ h2 => hno j (by omega)) (by omega)
    rw [hact]
    simp only [List.nil_append]
    rw [length_filterMap_of_isSome]
    · simp [List.length_range, hN]
    · intro x hx
      have hxlt : x < plan.steps.length := List.mem_range.mp hx
      simpa using hwf x (by omega)
  · unfold runActPhaseB
    rw [actLoopB_actions parseText oracleB plan.steps (B * 2) 0 [] [] (by omega)]
    simp only [List.nil_append]
    rw [length_filterMap_of_isSome]
    · simp [List.length_range, hN]
    · intro x hx
      have hxlt : x < plan.steps.length := List.mem_range.mp hx
      refine actBLastAction_isSome_of_no_error parseText _ ?_
      simpa using herr x (by omega)

/-- Witness for C9 (amended): a 3-step plan with well-formed, insertion-free
outputs yields a history of length 3 in both revisions (budget 5). -/
theorem actphase_history_length_witness :
    (runActPhaseA 5 { steps := List.replicate 3 (exPlanStep "s") } exC9Oracle).actions.length
      = 3
    ∧ (runActPhaseB (fun s => (s, s)) 5 { steps := List.replicate 3 (exPlanStep "s") }
        (fun _ => { fullText := "done", streamError := Option.none })).actions.length
      = 3 := by
  exact actphase_history_length { steps := List.replicate 3 (exPlanStep "s") } 3 5
    exC9Oracle (fun s => (s, s))
    (fun _ => { fullText := "done", streamError := Option.none })
    (by decide) (by omega)
    (fun j _ => by simp only [exC9Oracle]; decide)
    (fun j _ => by simp only [exC9Oracle]; decide)
    (fun j _ => rfl)

/-- Counterexample to claim C9 as stated: under the default act budget
(`actSteps = 5`, so ceiling 10), an 11-step plan with well-formed,
insertion-free model output at every step yields an action history of
length 10, not 11 — the `2×B` iteration ceiling truncates the history. -/
theorem actphase_history_length_counterexample :
    actStepsResolved Option.none = 5
    ∧ iterAdditions (exC9Oracle 0) = []
    ∧ (iterLast (exC9Oracle 0)).isSome = true
    ∧ exC9Plan.steps.length = 11
    ∧ (runActPhaseA (actStepsResolved Option.none) exC9Plan exC9Oracle).actions.length
      = 10 := by
  decide

/-! ## Claim C8 theorems -/

/-- Claim C8 (amended): the agent's own pipeline (`PlanActAgent.run`)
retains the most recent *successfully parsed* partial (accept-last over
`PlanSchema.safeParse`); the adapter's collectors instead retain the most
recent partial that merely *has* a `steps` key, validated or not. Neither
path ever raises on a malformed partial. -/
theorem plan_accept_last_policy :
    (∀ ps : List (Option PartialPlan),
        collectPlanAgent ps = (ps.filterMap (fun p => p.bind parsePlan)).getLast?)
    ∧ (∀ ps : List (Option PartialPlan),
        collectPlanAdapter ps
          = (ps.filterMap (fun p => p.bind
              (fun pp => if pp.steps.isSome then Option.some pp else Option.none))).getLast?) :=
  ⟨collectPlanAgent_eq_getLast, collectPlanAdapter_eq_getLast⟩

/-- Counterexample to claim C8 as stated: on a stream holding a valid
partial followed by a malformed partial that still has a `steps` key, the
last valid parse exists (the first partial), yet the adapter's working
plan is the malformed second partial — not ignored, and not the last valid
parse (it does not even parse). -/
theorem plan_accept_last_counterexample :
    (exC8Partials.filterMap (fun p => p.bind parsePlan)).getLast?
      = Option.some { steps := [exPlanStep "a"] }
    ∧ collectPlanAgent exC8Partials = Option.some { steps := [exPlanStep "a"] }
    ∧ resolvePlanAdapter exC8Partials = exInvalidPartialPlan
    ∧ parsePlan (resolvePlanAdapter exC8Partials) = Option.none := by
  decide

/-! ## Claim C1: dual-channel ordering -/

theorem chanInv_of_reachable (p a t : Nat) (s : ChanState)
    (h : ChanReachable true p a t s) : chanInv p a s := by
  induction h with
  | refl =>
    refine ⟨?_, ?_, ?_, ?_, ?_, ?_⟩ <;> simp [initChanState]
  | @tail b c hr hstep ih =>
    obtain ⟨iPlan, iAct, iDone, iReason, iText, iTrace⟩ := ih
    cases hstep with
    | planComplete hs =>
      obtain ⟨hpn, han⟩ := iPlan hs
      refine ⟨?_, ?_, ?_, ?_, ?_, ?_⟩
      · intro hx; simp at hx
      · intro _; exact ⟨rfl, han⟩
      · intro hx; simp at hx
      · intro hrd
        obtain ⟨pb, ab, hpb, hab, hsum⟩ := iReason hrd
        rw [hpn] at hpb
        exact Option.noConfusion hpb
      · intro htp
        obtain ⟨hexec, _⟩ := iText htp
        rw [hs] at hexec
        exact absurd hexec (by decide)
      · exact iTrace
    | actComplete hs =>
      obtain ⟨hpp, han⟩ := iAct hs
      refine ⟨?_, ?_, ?_, ?_, ?_, ?_⟩
      · intro hx; simp at hx
      · intro hx; simp at hx
      · intro _; exact ⟨hpp, rfl⟩
      · intro hrd
        obtain ⟨pb, ab, hpb, hab, hsum⟩ := iReason hrd
        rw [han] at hab
        exact Option.noConfusion hab
      · intro htp
        obtain ⟨hexec, _⟩ := iText htp
        rw [hs] at hexec
        exact absurd hexec (by decide)
      · exact iTrace
    | planFail hs =>
      obtain ⟨hpn, han⟩ := iPlan hs
      refine ⟨?_, ?_, ?_, ?_, ?_, ?_⟩
      · intro hx; simp at hx
      · intro hx; simp at hx
      · intro hx; simp at hx
      · intro hrd
        obtain ⟨pb, ab, hpb, hab, hsum⟩ := iReason hrd
        rw [hpn] at hpb
        exact Option.noConfusion hpb
      · intro htp
        obtain ⟨hexec, _⟩ := iText htp
        rw [hs] at hexec
        exact absurd hexec (by decide)
      · exact iTrace
    | actFail hs =>
      obtain ⟨hpp, han⟩ := iAct hs
      refine ⟨?_, ?_, ?_, ?_, ?_, ?_⟩
      · intro hx; simp at hx
      · intro hx; simp at hx
      · intro hx; simp at hx
      · intro hrd
        obtain ⟨pb, ab, hpb, hab, hsum⟩ := iReason hrd
        rw [han] at hab
        exact Option.noConfusion hab
      · intro htp
        obtain ⟨hexec, _⟩ := iText htp
        rw [hs] at hexec
        exact absurd hexec (by decide)
      · exact iTrace
    | reasonEmitPlan pb hr2 hp hlt =>
      have hnd : b.reasonDone = true → False := by
        intro hrd
        obtain ⟨pb2, ab2, hpb2, hab2, hsum⟩ := iReason hrd
        rw [hp] at hpb2
        obtain rfl := Option.some.inj hpb2
        omega
      have htext0 : b.textPos = 0 := by
        by_contra hne
        obtain ⟨_, hrd⟩ := iText (Nat.pos_of_ne_zero hne)
        exact hnd hrd
      refine ⟨iPlan, iAct, iDone, ?_, ?_, ?_⟩
      · intro hrd; exact (hnd hrd).elim
      · intro htp
        exact (hnd (iText htp).2).elim
      · show b.trace ++ [Chunk.reasoning b.reasonPos]
          = (List.range (b.reasonPos + 1)).map Chunk.reasoning
            ++ (List.range b.textPos).map Chunk.text
        rw [iTrace, htext0]
        simp [List.range_succ]
    | reasonEmitAct pb ab hr2 hp ha hge hlt =>
      have hnd : b.reasonDone = true → False := by
        intro hrd
        obtain ⟨pb2, ab2, hpb2, hab2, hsum⟩ := iReason hrd
        rw [hp] at hpb2
        rw [ha] at hab2
        obtain rfl := Option.some.inj hpb2
        obtain rfl := Option.some.inj hab2
        omega
      have htext0 : b.textPos = 0 := by
        by_contra hne
        obtain ⟨_, hrd⟩ := iText (Nat.pos_of_ne_zero hne)
        exact hnd hrd
      refine ⟨iPlan, iAct, iDone, ?_, ?_, ?_⟩
      · intro hrd; exact (hnd hrd).elim
      · intro htp
        exact (hnd (iText htp).2).elim
      · show b.trace ++ [Chunk.reasoning b.reasonPos]
          = (List.range (b.reasonPos + 1)).map Chunk.reasoning
            ++ (List.range b.textPos).map Chunk.text
        rw [iTrace, htext0]
        simp [List.range_succ]
    | reasonFinish pb ab hr2 hp ha heq hnd =>
      refine ⟨iPlan, iAct, iDone, ?_, ?_, iTrace⟩
      · intro _; exact ⟨pb, ab, hp, ha, heq⟩
      · intro htp
        exact ⟨(iText htp).1, rfl⟩
    | textEmit he hr2 hlt =>
      refine ⟨iPlan, iAct, iDone, iReason, ?_, ?_⟩
      · intro _; exact ⟨he, hr2 rfl⟩
      · show b.trace ++ [Chunk.text b.textPos]
          = (List.range b.reasonPos).map Chunk.reasoning
            ++ (List.range (b.textPos + 1)).map Chunk.text
        rw [iTrace]
        simp [List.range_succ]

/-- Claim C1: with reasoning requested, in every reachable state of the
adapter's stream coordination the emitted trace is all reasoning chunks
followed by all text chunks, and once any text chunk is out the reasoning
channel has signaled completion (`reasoningCompletePromise` resolved) after
emitting all of its `p + a` blocks — so every text-channel chunk is ordered
strictly after the last reasoning-channel chunk. -/
theorem dual_channel_ordering (p a t : Nat) (s : ChanState)
    (h : ChanReachable true p a t s) :
    s.trace = (List.range s.reasonPos).map Chunk.reasoning
        ++ (List.range s.textPos).map Chunk.text
    ∧ (0 < s.textPos → s.reasonDone = true ∧ s.reasonPos = p + a) := by
  obtain ⟨iPlan, iAct, iDone, iReason, iText, iTrace⟩ := chanInv_of_reachable p a t s h
  refine ⟨iTrace, ?_⟩
  intro htp
  obtain ⟨hexec, hrd⟩ := iText htp
  obtain ⟨hpp, hpa⟩ := iDone hexec
  obtain ⟨pb, ab, hpb, hab, hsum⟩ := iReason hrd
  rw [hpp] at hpb
  rw [hpa] at hab
  obtain rfl := Option.some.inj hpb
  obtain rfl := Option.some.inj hab
  exact ⟨hrd, hsum⟩

/-- Witness for C1: with one plan block, one action block and one text
delta, the run that emits `reasoning 0, reasoning 1, text 0` is reachable,
its trace has the reasoning-then-text shape, and text flowed only after
both reasoning blocks and the completion signal. -/
theorem dual_channel_ordering_witness :
    ChanReachable true 1 1 1
      { exec := .execDone, planBlocks := Option.some 1, actBlocks := Option.some 1,
        reasonPos := 2, reasonDone := true, textPos := 1,
        trace := [Chunk.reasoning 0, Chunk.reasoning 1, Chunk.text 0] }
    ∧ [Chunk.reasoning 0, Chunk.reasoning 1, Chunk.text 0]
      = (List.range 2).map Chunk.reasoning ++ (List.range 1).map Chunk.text
    ∧ (2 : Nat) = 1 + 1 := by
  have r1 : ChanReachable true 1 1 1
      { exec := .acting, planBlocks := Option.some 1, actBlocks := Option.none,
        reasonPos := 0, reasonDone := false, textPos := 0, trace := [] } :=
    Relation.ReflTransGen.refl.tail (AdapterStep.planComplete initChanState rfl)
  have r2 : ChanReachable true 1 1 1
      { exec := .acting, planBlocks := Option.some 1, actBlocks := Option.none,
        reasonPos := 1, reasonDone := false, textPos := 0,
        trace := [Chunk.reasoning 0] } :=
    r1.tail (AdapterStep.reasonEmitPlan _ 1 rfl rfl (by decide))
  have r3 : ChanReachable true 1 1 1
      { exec := .execDone, planBlocks := Option.some 1, actBlocks := Option.some 1,
        reasonPos := 1, reasonDone := false, textPos := 0,
        trace := [Chunk.reasoning 0] } :=
    r2.tail (AdapterStep.actComplete _ rfl)
  have r4 : ChanReachable true 1 1 1
      { exec := .execDone, planBlocks := Option.some 1, actBlocks := Option.some 1,
        reasonPos := 2, reasonDone := false, textPos := 0,
        trace := [Chunk.reasoning 0, Chunk.reasoning 1] } :=
    r3.tail (AdapterStep.reasonEmitAct _ 1 1 rfl rfl rfl (by decide) (by decide))
  have r5 : ChanReachable true 1 1 1
      { exec := .execDone, planBlocks := Option.some 1, actBlocks := Option.some 1,
        reasonPos := 2, reasonDone := true, textPos := 0,
        trace := [Chunk.reasoning 0, Chunk.reasoning 1] } :=
    r4.tail (AdapterStep.reasonFinish _ 1 1 rfl rfl rfl rfl rfl)
  have r6 : ChanReachable true 1 1 1
      { exec := .execDone, planBlocks := Option.some 1, actBlocks := Option.some 1,
        reasonPos := 2, reasonDone := true, textPos := 1,
        trace := [Chunk.reasoning 0, Chunk.reasoning 1, Chunk.text 0] } :=
    r5.tail (AdapterStep.textEmit _ rfl (fun _ => rfl) (by decide))
  have h := dual_channel_ordering 1 1 1 _ r6
  exact ⟨r6, h.1, (h.2 (by decide)).2⟩

end AgentsRepo
